import Mathlib

/-!
Verification of the Qlick quiz application core (`src/Qlick/app.py` and the
near-duplicate `src/Qlick Project/Qlick/app.py`): the JSON response extractor
`_to_json`, the question sanitizing loop and fallback logic of
`generate_mcqs`, and the scoring logic of the `submit` handler.

Python's `json.loads` is modelled by a recursive-descent parser over
`List Char`, faithful to the strict JSON grammar accepted by the CPython
`json` module (including the `NaN` / `Infinity` / `-Infinity` constants and
rejection of control characters inside strings).  Machine floats are kept
symbolically as their numeric token, which is enough for every property
considered here.
-/

/-- JSON values as produced by `json.loads`.  Numbers keep their source
token (CPython distinguishes ints and floats; the token determines which). -/
inductive Json where
  | null : Json
  | bool (b : Bool) : Json
  | num (tok : List Char) : Json
  | str (s : List Char) : Json
  | arr (xs : List Json) : Json
  | obj (kvs : List (List Char × Json)) : Json

/-- The character code of an opening brace (written by code to keep literal
braces out of the source text of this file). -/
def lbrace : Char := Char.ofNat 123

/-- Closing brace character. -/
def rbrace : Char := Char.ofNat 125

/-- Double-quote character. -/
def dquote : Char := Char.ofNat 34

/-- Single-quote character. -/
def squote : Char := Char.ofNat 39

/-- Backslash character. -/
def bslash : Char := Char.ofNat 92

/-- JSON whitespace as accepted between tokens by CPython's json module:
space, tab, newline, carriage return. -/
def isWsChar (c : Char) : Bool :=
  c.toNat = 32 || c.toNat = 9 || c.toNat = 10 || c.toNat = 13

/-- ASCII decimal digit test. -/
def isDigitChar (c : Char) : Bool :=
  48 ≤ c.toNat && c.toNat ≤ 57

/-- ASCII hexadecimal digit test. -/
def isHexChar (c : Char) : Bool :=
  (48 ≤ c.toNat && c.toNat ≤ 57) || (65 ≤ c.toNat && c.toNat ≤ 70) ||
    (97 ≤ c.toNat && c.toNat ≤ 102)

/-- ASCII letter test. -/
def isLetterChar (c : Char) : Bool :=
  (65 ≤ c.toNat && c.toNat ≤ 90) || (97 ≤ c.toNat && c.toNat ≤ 122)

/-- Drop leading JSON whitespace. -/
def skipWs : List Char → List Char
  | [] => []
  | c :: cs => if isWsChar c then skipWs cs else c :: cs

/-- Match a literal character sequence, returning the rest of the input. -/
def matchLit : List Char → List Char → Option (List Char)
  | [], cs => some cs
  | _ :: _, [] => none
  | l :: ls, c :: cs => if c = l then matchLit ls cs else none

/-- Longest prefix of decimal digits, and the rest. -/
def takeDigits : List Char → List Char × List Char
  | [] => ([], [])
  | c :: cs =>
    if isDigitChar c then
      let p := takeDigits cs
      (c :: p.1, p.2)
    else ([], c :: cs)

/-- Hex digit numeric value. -/
def hexVal (c : Char) : Nat :=
  if c.toNat ≤ 57 then c.toNat - 48
  else if c.toNat ≤ 70 then c.toNat - 55
  else c.toNat - 87

/-- Optional fraction and exponent parts of a JSON number
(pattern preserved in `(\.\d+)?([eE][-+]?\d+)?` form); returns the matched
characters and the rest. -/
def parseFracExp (cs : List Char) : List Char × List Char :=
  let fr : List Char × List Char :=
    match cs with
    | '.' :: d :: r =>
      if isDigitChar d then
        let p := takeDigits r
        ('.' :: d :: p.1, p.2)
      else ([], cs)
    | _ => ([], cs)
  let r1 := fr.2
  let ex : List Char × List Char :=
    match r1 with
    | e :: rest =>
      if e = 'e' || e = 'E' then
        match rest with
        | s :: rest2 =>
          if s = '+' || s = '-' then
            match rest2 with
            | d :: r3 =>
              if isDigitChar d then
                let p := takeDigits r3
                (e :: s :: d :: p.1, p.2)
              else ([], r1)
            | [] => ([], r1)
          else if isDigitChar s then
            let p := takeDigits rest2
            (e :: s :: p.1, p.2)
          else ([], r1)
        | [] => ([], r1)
      else ([], r1)
    | [] => ([], r1)
  (fr.1 ++ ex.1, ex.2)

/-- Unsigned JSON number body: `0` or a nonzero-led digit run, then optional
fraction/exponent.  Mirrors CPython's NUMBER_RE. -/
def parseNumBody (cs : List Char) : Option (List Char × List Char) :=
  match cs with
  | [] => none
  | c :: r =>
    if c = '0' then
      let p := parseFracExp r
      some ('0' :: p.1, p.2)
    else if isDigitChar c then
      let d := takeDigits r
      let p := parseFracExp d.2
      some ((c :: d.1) ++ p.1, p.2)
    else none

/-- A JSON number token with optional leading minus sign. -/
def parseNum (cs : List Char) : Option (List Char × List Char) :=
  match cs with
  | [] => none
  | c :: r =>
    if c = '-' then (parseNumBody r).map (fun p => ('-' :: p.1, p.2))
    else parseNumBody cs

mutual

/-- One JSON value (leading whitespace allowed), returning the value and the
unconsumed input.  Fuel-indexed to make the recursion structural; callers
supply ample fuel. -/
def parseValue : Nat → List Char → Option (Json × List Char)
  | 0, _ => none
  | fuel + 1, cs =>
    match skipWs cs with
    | [] => none
    | c :: r =>
      if c = lbrace then parseObjBody fuel r
      else if c = '[' then parseArrBody fuel r
      else if c = dquote then
        (parseStrBody fuel r).map (fun p => (Json.str p.1, p.2))
      else if c = 't' then
        (matchLit ['r', 'u', 'e'] r).map (fun r2 => (Json.bool true, r2))
      else if c = 'f' then
        (matchLit ['a', 'l', 's', 'e'] r).map (fun r2 => (Json.bool false, r2))
      else if c = 'n' then
        (matchLit ['u', 'l', 'l'] r).map (fun r2 => (Json.null, r2))
      else if c = 'N' then
        (matchLit ['a', 'N'] r).map (fun r2 => (Json.num ['N', 'a', 'N'], r2))
      else if c = 'I' then
        (matchLit ['n', 'f', 'i', 'n', 'i', 't', 'y'] r).map
          (fun r2 => (Json.num ['I', 'n', 'f'], r2))
      else if c = '-' then
        match r with
        | 'I' :: r2 =>
          (matchLit ['n', 'f', 'i', 'n', 'i', 't', 'y'] r2).map
            (fun r3 => (Json.num ['-', 'I', 'n', 'f'], r3))
        | _ => (parseNum (c :: r)).map (fun p => (Json.num p.1, p.2))
      else (parseNum (c :: r)).map (fun p => (Json.num p.1, p.2))

/-- Object body after the opening brace: whitespace, then either a closing
brace or the first (string) key. -/
def parseObjBody : Nat → List Char → Option (Json × List Char)
  | 0, _ => none
  | fuel + 1, cs =>
    match skipWs cs with
    | [] => none
    | c :: r =>
      if c = rbrace then some (Json.obj [], r)
      else if c = dquote then parseMembers fuel (c :: r) []
      else none

/-- Object members, positioned at the double quote of the next key. -/
def parseMembers : Nat → List Char → List (List Char × Json) →
    Option (Json × List Char)
  | 0, _, _ => none
  | fuel + 1, cs, acc =>
    match cs with
    | [] => none
    | c :: r =>
      if c = dquote then
        match parseStrBody fuel r with
        | none => none
        | some (key, r1) =>
          match skipWs r1 with
          | ':' :: r2 =>
            match parseValue fuel r2 with
            | none => none
            | some (v, r3) =>
              match skipWs r3 with
              | [] => none
              | d :: r4 =>
                if d = ',' then parseMembers fuel (skipWs r4) (acc ++ [(key, v)])
                else if d = rbrace then some (Json.obj (acc ++ [(key, v)]), r4)
                else none
          | _ => none
      else none

/-- Array body after the opening bracket. -/
def parseArrBody : Nat → List Char → Option (Json × List Char)
  | 0, _ => none
  | fuel + 1, cs =>
    match skipWs cs with
    | ']' :: r => some (Json.arr [], r)
    | _ => parseItems fuel cs []

/-- Array items, positioned before the next element. -/
def parseItems : Nat → List Char → List Json → Option (Json × List Char)
  | 0, _, _ => none
  | fuel + 1, cs, acc =>
    match parseValue fuel cs with
    | none => none
    | some (v, r1) =>
      match skipWs r1 with
      | ',' :: r2 => parseItems fuel r2 (acc ++ [v])
      | ']' :: r2 => some (Json.arr (acc ++ [v]), r2)
      | _ => none

/-- String body after the opening double quote, with CPython's strict-mode
escape handling: the eight named escapes plus 4-hex-digit unicode escapes;
raw control characters below 0x20 are rejected. -/
def parseStrBody : Nat → List Char → Option (List Char × List Char)
  | 0, _ => none
  | fuel + 1, cs =>
    match cs with
    | [] => none
    | c :: r =>
      if c = dquote then some ([], r)
      else if c = bslash then
        match r with
        | [] => none
        | e :: r2 =>
          if e = dquote then
            (parseStrBody fuel r2).map (fun p => (dquote :: p.1, p.2))
          else if e = bslash then
            (parseStrBody fuel r2).map (fun p => (bslash :: p.1, p.2))
          else if e = '/' then
            (parseStrBody fuel r2).map (fun p => ('/' :: p.1, p.2))
          else if e = 'b' then
            (parseStrBody fuel r2).map (fun p => (Char.ofNat 8 :: p.1, p.2))
          else if e = 'f' then
            (parseStrBody fuel r2).map (fun p => (Char.ofNat 12 :: p.1, p.2))
          else if e = 'n' then
            (parseStrBody fuel r2).map (fun p => (Char.ofNat 10 :: p.1, p.2))
          else if e = 'r' then
            (parseStrBody fuel r2).map (fun p => (Char.ofNat 13 :: p.1, p.2))
          else if e = 't' then
            (parseStrBody fuel r2).map (fun p => (Char.ofNat 9 :: p.1, p.2))
          else if e = 'u' then
            match r2 with
            | h1 :: h2 :: h3 :: h4 :: r3 =>
              if isHexChar h1 && isHexChar h2 && isHexChar h3 && isHexChar h4 then
                (parseStrBody fuel r3).map (fun p =>
                  (Char.ofNat (((hexVal h1 * 16 + hexVal h2) * 16 + hexVal h3) * 16
                      + hexVal h4) :: p.1, p.2))
              else none
            | _ => none
          else none
      else if c.toNat < 32 then none
      else (parseStrBody fuel r).map (fun p => (c :: p.1, p.2))

end

/-- Model of `json.loads` on a character list: parse one value and require only
whitespace afterwards. -/
def json_loadsL (cs : List Char) : Option Json :=
  match parseValue (6 * cs.length + 6) cs with
  | none => none
  | some (v, rest) => if skipWs rest = [] then some v else none

/-- Model of `json.loads` on a string. -/
def json_loads (s : String) : Option Json := json_loadsL s.data

/-- The span matched by `re.search(r"\x7b[\s\S]*\x7d", raw)`: from the first
opening brace to the last closing brace that follows it (greedy), or `none`
when no such span exists. -/
def braceSpan (cs : List Char) : Option (List Char) :=
  if (cs.dropWhile (fun c => c ≠ lbrace)).isEmpty then none
  else if (((cs.dropWhile (fun c => c ≠ lbrace)).reverse.dropWhile
      (fun c => c ≠ rbrace)).reverse).isEmpty then none
  else some ((cs.dropWhile (fun c => c ≠ lbrace)).reverse.dropWhile
      (fun c => c ≠ rbrace)).reverse

/-- Replacement `raw.replace(squote, dquote)` on a single character. -/
def replQ (c : Char) : Char := if c = squote then dquote else c

/-- Replacement of every single quote by a double quote (`raw.replace`). -/
def replaceQuotes (cs : List Char) : List Char := cs.map replQ

/-- The helper `_to_json` from `app.py`: strict parse of the whole reply,
else strict parse of the greedy first-brace/last-brace span, else strict
parse of the whole reply with single quotes replaced by double quotes, else
the empty mapping.  (In Python each failing attempt raises and is caught;
here failure is the `none` of the parser, so the function is total.) -/
def _to_json (raw : String) : Json :=
  match json_loadsL raw.data with
  | some v => v
  | none =>
    match (braceSpan raw.data).bind json_loadsL with
    | some v => v
    | none =>
      match json_loadsL (replaceQuotes raw.data) with
      | some v => v
      | none => Json.obj []

/-- Whether a `json.loads` result is a mapping (a Python `dict`). -/
def isMapping : Json → Bool
  | .obj _ => true
  | _ => false

/-! Part: Python value model

Values flowing through the sanitizing loop of `generate_mcqs` are the Python
objects produced by `json.loads` plus the strings/ints the code creates.
Floats are kept as their numeric token. -/

/-- Loosely-typed Python values. -/
inductive PyVal where
  | none_ : PyVal
  | bool (b : Bool) : PyVal
  | int (n : Int) : PyVal
  | floatv (tok : List Char) : PyVal
  | str (s : String) : PyVal
  | list (xs : List PyVal) : PyVal
  | dict (kvs : List (String × PyVal)) : PyVal

/-- Whether a numeric token is an integer literal (no fraction, exponent or
named constant), so that `json.loads` yields a Python `int` for it. -/
def isIntTok (tok : List Char) : Bool :=
  match tok with
  | '-' :: ds => !ds.isEmpty && ds.all isDigitChar
  | ds => !ds.isEmpty && ds.all isDigitChar

/-- Numeric value of a digit run. -/
def digitsToNat (ds : List Char) : Nat :=
  ds.foldl (fun a c => 10 * a + (c.toNat - 48)) 0

/-- Integer value of an integer token. -/
def intOfTok (tok : List Char) : Int :=
  match tok with
  | '-' :: ds => -(digitsToNat ds : Int)
  | ds => (digitsToNat ds : Int)

/-- A parsed JSON number as a Python value: `int` for integer tokens,
`float` (kept symbolic) otherwise. -/
def numTokToPy (tok : List Char) : PyVal :=
  if isIntTok tok then PyVal.int (intOfTok tok) else PyVal.floatv tok

mutual

/-- The Python object built by `json.loads` from a parsed JSON value. -/
def jsonToPy : Json → PyVal
  | .null => .none_
  | .bool b => .bool b
  | .num t => numTokToPy t
  | .str s => .str (String.mk s)
  | .arr xs => .list (jsonToPyList xs)
  | .obj kvs => .dict (jsonToPyKVs kvs)

/-- Elementwise conversion of a JSON array. -/
def jsonToPyList : List Json → List PyVal
  | [] => []
  | x :: xs => jsonToPy x :: jsonToPyList xs

/-- Memberwise conversion of a JSON object. -/
def jsonToPyKVs : List (List Char × Json) → List (String × PyVal)
  | [] => []
  | (k, v) :: rest => (String.mk k, jsonToPy v) :: jsonToPyKVs rest

end

/-- Python truthiness (`bool(x)`): `None`, `False`, zero, the empty string
and empty containers are falsy.  A float is falsy exactly when its token has
digits and they are all zero (`NaN`/`Infinity` are truthy). -/
def pyTruthy : PyVal → Bool
  | .none_ => false
  | .bool b => b
  | .int n => n ≠ 0
  | .floatv t =>
    (t.any fun c => isDigitChar c && c ≠ '0') || t.all (fun c => !isDigitChar c)
  | .str s => s ≠ ""
  | .list l => !l.isEmpty
  | .dict l => !l.isEmpty

/-- Python `x or y`. -/
def pyOr (x y : PyVal) : PyVal := if pyTruthy x then x else y

/-- Lookup `d.get(key, default)` on a Python dict; later bindings shadow earlier
ones, as repeated JSON keys overwrite in the dict `json.loads` builds. -/
def dGetD (kvs : List (String × PyVal)) (k : String) (dflt : PyVal) : PyVal :=
  match kvs.reverse.find? (fun p => p.1 = k) with
  | some p => p.2
  | none => dflt

/-- Python whitespace for `str.strip()` / `int(str)`: space, tab, newline,
carriage return, vertical tab, form feed (ASCII model). -/
def isPySpace (c : Char) : Bool :=
  c.toNat = 32 || c.toNat = 9 || c.toNat = 10 || c.toNat = 13 ||
    c.toNat = 11 || c.toNat = 12

/-- Model of `str.strip()` on a character list. -/
def stripL (cs : List Char) : List Char :=
  ((cs.dropWhile isPySpace).reverse.dropWhile isPySpace).reverse

/-- Model of `str.strip()`. -/
def pyStrip (s : String) : String := String.mk (stripL s.data)

mutual

/-- Python `str(x)`.  For containers this is `repr`; `repr` of a string is
modelled as the single-quoted text (CPython additionally escapes quotes and
special characters, which no property here depends on). -/
def pyStr : PyVal → String
  | .none_ => "None"
  | .bool b => if b then "True" else "False"
  | .int n => toString n
  | .floatv t => String.mk t
  | .str s => s
  | .list xs => "[" ++ pyReprJoin xs ++ "]"
  | .dict kvs =>
    String.mk [lbrace] ++ pyReprJoinKVs kvs ++ String.mk [rbrace]

/-- Python `repr(x)`. -/
def pyRepr : PyVal → String
  | .str s => String.mk [squote] ++ s ++ String.mk [squote]
  | .none_ => "None"
  | .bool b => if b then "True" else "False"
  | .int n => toString n
  | .floatv t => String.mk t
  | .list xs => "[" ++ pyReprJoin xs ++ "]"
  | .dict kvs =>
    String.mk [lbrace] ++ pyReprJoinKVs kvs ++ String.mk [rbrace]

/-- Comma-joined element reprs of a list. -/
def pyReprJoin : List PyVal → String
  | [] => ""
  | [x] => pyRepr x
  | x :: y :: rest => pyRepr x ++ ", " ++ pyReprJoin (y :: rest)

/-- Comma-joined `key: value` reprs of a dict. -/
def pyReprJoinKVs : List (String × PyVal) → String
  | [] => ""
  | [(k, v)] => String.mk [squote] ++ k ++ String.mk [squote] ++ ": " ++ pyRepr v
  | (k, v) :: p :: rest =>
    String.mk [squote] ++ k ++ String.mk [squote] ++ ": " ++ pyRepr v ++
      ", " ++ pyReprJoinKVs (p :: rest)

end

/-- Digit run with single underscores allowed between digits, as `int(str)`
accepts; returns the numeric value. -/
def duGo (acc : Nat) : List Char → Option Nat
  | [] => some acc
  | c :: r =>
    if isDigitChar c then duGo (10 * acc + (c.toNat - 48)) r
    else if c = '_' then
      match r with
      | d :: r2 =>
        if isDigitChar d then duGo (10 * acc + (d.toNat - 48)) r2 else none
      | [] => none
    else none

/-- Unsigned decimal literal for `int(str)`. -/
def digitsUnderscore (cs : List Char) : Option Nat :=
  match cs with
  | c :: r => if isDigitChar c then duGo (c.toNat - 48) r else none
  | [] => none

/-- Python `int(s)` on a string: surrounding whitespace stripped, optional
sign, decimal digits (ASCII model); `none` models the `ValueError`. -/
def pyIntStr (s : String) : Option Int :=
  match stripL s.data with
  | [] => none
  | c :: r =>
    if c = '+' then (digitsUnderscore r).map (fun n => (n : Int))
    else if c = '-' then (digitsUnderscore r).map (fun n => -(n : Int))
    else (digitsUnderscore (c :: r)).map (fun n => (n : Int))

/-- Truncation toward zero of an unsigned float token (digits, optional
fraction, optional exponent); `none` for `NaN`/`Infinity`. -/
def floatTruncAbs (cs : List Char) : Option Nat :=
  let ip := takeDigits cs
  if ip.1.isEmpty then none
  else
    let fp : List Char × List Char :=
      match ip.2 with
      | '.' :: rr => takeDigits rr
      | _ => ([], ip.2)
    let expVal : Int :=
      match fp.2 with
      | e :: rr =>
        if e = 'e' || e = 'E' then
          match rr with
          | '+' :: rr2 => (digitsToNat (takeDigits rr2).1 : Int)
          | '-' :: rr2 => -(digitsToNat (takeDigits rr2).1 : Int)
          | _ => (digitsToNat (takeDigits rr).1 : Int)
        else 0
      | [] => 0
    let digs := ip.1 ++ fp.1
    let point : Int := (ip.1.length : Int) + expVal
    if point ≤ 0 then some 0
    else
      let p := point.toNat
      let padded := digs ++ List.replicate (p - digs.length) '0'
      some (digitsToNat (padded.take p))

/-- Python `int(x)` on a float kept as its token: truncation toward zero
(exact-arithmetic model of the double value); `NaN`/`Infinity` raise. -/
def floatTrunc (tok : List Char) : Option Int :=
  match tok with
  | '-' :: r => (floatTruncAbs r).map (fun n => -(n : Int))
  | r => (floatTruncAbs r).map (fun n => (n : Int))

/-- Python `int(x)`; `none` models the exception caught by the sanitizer. -/
def pyInt : PyVal → Option Int
  | .int n => some n
  | .bool b => some (if b then 1 else 0)
  | .str s => pyIntStr s
  | .floatv t => floatTrunc t
  | _ => none

/-! Part: The sanitizing loop, generator and scorer -/

/-- One sanitized multiple-choice question as appended to `cleaned`. -/
structure Question where
  question : String
  choices : List String
  answer_index : Int
deriving Repr, DecidableEq

/-- The body of one iteration of the cleaning loop on a dict candidate:
trim the `question` text, take `choices or []`, skip (`none`) unless the
question is non-empty and the choices are a list of exactly 4 items, and
coerce/clamp `answer_index` (never a rejection reason). -/
def candStep (kvs : List (String × PyVal)) : Option Question :=
  match pyOr (dGetD kvs "choices" PyVal.none_) (.list []) with
  | .list cs =>
    if pyStrip (pyStr (dGetD kvs "question" (.str ""))) = "" ∨ cs.length ≠ 4
    then none
    else some ⟨pyStrip (pyStr (dGetD kvs "question" (.str ""))), cs.map pyStr,
      max 0 (min ((pyInt (dGetD kvs "answer_index" (.int 0))).getD 0) 3)⟩
  | _ => none

/-- The cleaning loop of `generate_mcqs` over the (already sliced) candidate
list.  A non-dict candidate makes `q.get` raise `AttributeError`, which the
surrounding `try` of `generate_mcqs` catches: modelled as `Except.error`,
discarding everything cleaned so far. -/
def cleanLoop : List PyVal → Except Unit (List Question)
  | [] => .ok []
  | q :: rest =>
    match q with
    | .dict kvs =>
      match candStep kvs with
      | none => cleanLoop rest
      | some item => (cleanLoop rest).map (fun l => item :: l)
    | _ => .error ()

/-- The sanitizer: slice the candidates to at most `maxCount` (the code's
`[:num_q]`, applied before any validation) and run the cleaning loop. -/
def sanitize (cands : List PyVal) (maxCount : Nat) : Except Unit (List Question) :=
  cleanLoop (cands.take maxCount)

/-- The step `data.get("questions") or []` followed by the slice/iteration of the
loop: absent or falsy yields `[]`; a truthy non-list raises (`TypeError` at
the slice for numbers/dicts, `AttributeError` at `q.get` for strings); on a
non-dict `data`, `.get` itself raises. -/
def questionsCands (data : PyVal) : Except Unit (List PyVal) :=
  match data with
  | .dict pkvs =>
    let v := dGetD pkvs "questions" PyVal.none_
    if pyTruthy v then
      match v with
      | .list l => .ok l
      | _ => .error ()
    else .ok []
  | _ => .error ()

/-- The full reply-processing inside the `try` of `generate_mcqs`: extract
JSON, read the candidate list, slice it and clean it. -/
def attemptClean (raw : String) (n : Nat) : Except Unit (List Question) :=
  match questionsCands (jsonToPy (_to_json raw)) with
  | .error e => .error e
  | .ok cands => sanitize cands n

/-- The count clamp `max(1, min(int(num_q), 10))` from both variants. -/
def clampCount (n : Int) : Int := max 1 (min n 10)

/-- The fixed placeholder choice list. -/
def optionChoices : List String :=
  ["Option A", "Option B", "Option C", "Option D"]

/-- A fallback question of the primary variant (`src/Qlick/app.py`). -/
def sampleQ (i : Nat) (language : String) : Question :=
  ⟨"Sample Question " ++ toString i ++ "? (" ++ language ++ ")",
    optionChoices, 0⟩

/-- A fallback question of the secondary variant
(`src/Qlick Project/Qlick/app.py`), which has no language parameter. -/
def sampleQ2 (i : Nat) : Question :=
  ⟨"Sample Question " ++ toString i ++ "?", optionChoices, 0⟩

/-- A padding question of the primary variant's `while` loop. -/
def dummyQ (i : Nat) (language : String) : Question :=
  ⟨"Dummy Question " ++ toString i ++ "? (" ++ language ++ ")",
    optionChoices, 0⟩

/-- The primary variant's `while len(cleaned) < num_q` padding loop; `fuel`
bounds the iterations (`fuel = n` always suffices). -/
def padQuestions : Nat → Nat → List Question → String → List Question
  | 0, _, acc, _ => acc
  | fuel + 1, n, acc, language =>
    if acc.length < n then
      padQuestions fuel n (acc ++ [dummyQ (acc.length + 1) language]) language
    else acc

/-- The generation backend, as seen by `generate_mcqs`: not configured
(no `OPENAI_API_KEY` / failed import), configured but raising on the call,
or returning a raw text reply. -/
inductive Backend where
  | unconfigured : Backend
  | failing : Backend
  | replies (raw : String) : Backend

/-- Model of `generate_mcqs` of the primary variant (`src/Qlick/app.py`, lines
49-132): clamp the count; without a usable backend return the deterministic
fallback; otherwise extract/sanitize the reply, pad with dummy questions up
to the count, and return the result (the fallback also covers any exception
inside the `try`).  The prompt construction is irrelevant to the returned
value and is not modelled; the result is the `questions` list. -/
def generate_mcqs (b : Backend) (_source_text : String) (num_q : Int)
    (language : String) : List Question :=
  match b with
  | .unconfigured =>
    (List.range' 1 (clampCount num_q).toNat).map (fun i => sampleQ i language)
  | .failing =>
    (List.range' 1 (clampCount num_q).toNat).map (fun i => sampleQ i language)
  | .replies raw =>
    match attemptClean raw (clampCount num_q).toNat with
    | .error _ =>
      (List.range' 1 (clampCount num_q).toNat).map (fun i => sampleQ i language)
    | .ok cleaned =>
      if (padQuestions (clampCount num_q).toNat (clampCount num_q).toNat
          cleaned language).isEmpty then
        (List.range' 1 (clampCount num_q).toNat).map (fun i => sampleQ i language)
      else
        padQuestions (clampCount num_q).toNat (clampCount num_q).toNat
          cleaned language

/-- Model of `generate_mcqs` of the secondary variant (`src/Qlick Project/Qlick/
app.py`, lines 32-95): identical except that there is no language parameter
and no padding loop — a non-empty cleaned list is returned as-is. -/
def generate_mcqs2 (b : Backend) (_source_text : String) (num_q : Int) :
    List Question :=
  match b with
  | .unconfigured => (List.range' 1 (clampCount num_q).toNat).map sampleQ2
  | .failing => (List.range' 1 (clampCount num_q).toNat).map sampleQ2
  | .replies raw =>
    match attemptClean raw (clampCount num_q).toNat with
    | .error _ => (List.range' 1 (clampCount num_q).toNat).map sampleQ2
    | .ok cleaned =>
      if cleaned.isEmpty then
        (List.range' 1 (clampCount num_q).toNat).map sampleQ2
      else cleaned

/-- The picked index for one question in `submit`: the posted form value
parsed with `int(...)`, with absent (`None` → `TypeError`) or unparseable
(`ValueError`) values becoming `-1`. -/
def pickedOf (o : Option String) : Int :=
  match o with
  | none => -1
  | some s => (pyIntStr s).getD (-1)

/-- The counting loop of `submit`: one pass over the stored questions'
answer indices, comparing each with the form value `q_<idx>`. -/
def countCorrect : List Int → (Nat → Option String) → Nat → Nat
  | [], _, _ => 0
  | a :: rest, form, idx =>
    (if pickedOf (form idx) = a then 1 else 0) + countCorrect rest form (idx + 1)

/-- The step `int(round(100 * correct / total))` with `total > 0`: CPython's `round`
on the float quotient, modelled as exact round-half-to-even on the rational
`100 * c / t` (they agree on every case reachable here, where exact halves
have power-of-two denominators and are thus exactly representable). -/
def pyRound100 (c t : Nat) : Nat :=
  if 2 * (100 * c % t) < t then 100 * c / t
  else if t < 2 * (100 * c % t) then 100 * c / t + 1
  else if (100 * c / t) % 2 = 0 then 100 * c / t else 100 * c / t + 1

/-- The scoring computation of `submit` (lines 169-181 resp. 123-135):
`correct`, `total = len(...) or 1`, and the rounded percentage. -/
def submitScore (answers : List Int) (form : Nat → Option String) :
    Nat × Nat × Nat :=
  let correct := countCorrect answers form 0
  let total := if answers.length = 0 then 1 else answers.length
  (correct, total, pyRound100 correct total)

/-! Part: Scorer properties -/

/-- The counting loop counts exactly the positions whose posted value parses
to the stored answer index. -/
theorem countCorrect_eq_countP (l : List Int) (form : Nat → Option String) :
    ∀ k, countCorrect l form k =
      (l.enumFrom k).countP (fun p => decide (pickedOf (form p.1) = p.2)) := by
  induction l with
  | nil => intro k; rfl
  | cons a rest ih =>
    intro k
    simp only [countCorrect, List.enumFrom, List.countP_cons, ih (k + 1),
      decide_eq_true_eq]
    by_cases h : pickedOf (form k) = a <;> simp [h, Nat.add_comm]

/-- The rounded percentage is within half of the exact rational percentage:
`|total * score - 100 * correct| * 2 ≤ total`. -/
theorem pyRound100_nearest (c t : Nat) (ht : 0 < t) :
    2 * (((t : Int) * pyRound100 c t) - 100 * c).natAbs ≤ t := by
  unfold pyRound100
  obtain ⟨q, hq⟩ : ∃ q, 100 * c / t = q := ⟨_, rfl⟩
  obtain ⟨r, hr⟩ : ∃ r, 100 * c % t = r := ⟨_, rfl⟩
  rw [hq, hr]
  have hdm : t * q + r = 100 * c := by rw [← hq, ← hr]; exact Nat.div_add_mod _ t
  have hlt : r < t := hr ▸ Nat.mod_lt _ ht
  have hdmz : (t : Int) * (q : Int) + (r : Int) = 100 * (c : Int) := by
    exact_mod_cast hdm
  split_ifs with h1 h2 h3
  · have e : (t : Int) * (q : Int) - 100 * c = -(r : Int) := by linarith
    rw [e, Int.natAbs_neg, Int.natAbs_ofNat]
    omega
  · rw [Nat.cast_add, Nat.cast_one]
    have e : (t : Int) * ((q : Int) + 1) - 100 * c = (t : Int) - (r : Int) := by
      rw [mul_add, mul_one]; linarith
    have e2 : (t : Int) - (r : Int) = ((t - r : Nat) : Int) := by omega
    rw [e, e2, Int.natAbs_ofNat]
    omega
  · have e : (t : Int) * (q : Int) - 100 * c = -(r : Int) := by linarith
    rw [e, Int.natAbs_neg, Int.natAbs_ofNat]
    omega
  · rw [Nat.cast_add, Nat.cast_one]
    have e : (t : Int) * ((q : Int) + 1) - 100 * c = (t : Int) - (r : Int) := by
      rw [mul_add, mul_one]; linarith
    have e2 : (t : Int) - (r : Int) = ((t - r : Nat) : Int) := by omega
    rw [e, e2, Int.natAbs_ofNat]
    omega

/-- C6: the scorer counts the positions where the picked index equals the
stored `answer_index`, uses `total = max 1 (number of questions)`, and the
returned `score_percent` is `100 * correct / total` rounded to the nearest
integer (within one half, ties broken to even as CPython's `round` does);
on the three-question quiz with answers `[0, 1, 2]` and submission
`[0, 1, 3]` it yields `correct = 2`, `total = 3`, `score = 67`. -/
theorem C6_scorer_formula (answers : List Int) (form : Nat → Option String) :
    (submitScore answers form).1 =
      (answers.enum).countP (fun p => decide (pickedOf (form p.1) = p.2)) ∧
    (submitScore answers form).2.1 = max 1 answers.length ∧
    2 * (((submitScore answers form).2.1 : Int) * (submitScore answers form).2.2
        - 100 * (submitScore answers form).1).natAbs
      ≤ (submitScore answers form).2.1 ∧
    submitScore [0, 1, 2] (fun i => ["0", "1", "3"].get? i) = (2, 3, 67) := by
  refine ⟨?_, ?_, ?_, rfl⟩
  · simpa [submitScore, List.enum] using countCorrect_eq_countP answers form 0
  · simp only [submitScore]
    split_ifs <;> omega
  · have ht : 0 < (if answers.length = 0 then 1 else answers.length) := by
      split_ifs <;> omega
    simpa [submitScore] using
      pyRound100_nearest (countCorrect answers form 0) _ ht

/-- Witness for C6 at a concrete quiz and submission. -/
theorem C6_scorer_formula_witness :
    submitScore [0, 1, 2] (fun i => ["0", "1", "3"].get? i) = (2, 3, 67) :=
  (C6_scorer_formula [0, 1, 2] (fun i => ["0", "1", "3"].get? i)).2.2.2

/-- C7: the scorer has no failure path — an absent picked value and an
unparseable picked value are both treated as `-1`, which never equals an
answer index in `[0, 3]`, so such a position is never counted correct; and
the empty quiz scores as `correct = 0`, `total = 1`, `score = 0` with no
division by zero (`submitScore` is total). -/
theorem C7_scorer_no_failure :
    (∀ form : Nat → Option String, submitScore [] form = (0, 1, 0)) ∧
    pickedOf none = -1 ∧
    (∀ s : String, pyIntStr s = none → pickedOf (some s) = -1) ∧
    (∀ (a : Int) (rest : List Int) (form : Nat → Option String) (idx : Nat),
      0 ≤ a → a ≤ 3 → pickedOf (form idx) = -1 →
      countCorrect (a :: rest) form idx = countCorrect rest form (idx + 1)) := by
  refine ⟨fun _ => by with_unfolding_all rfl, rfl, ?_, ?_⟩
  · intro s h
    simp [pickedOf, h]
  · intro a rest form idx h0 h3 hp
    have : pickedOf (form idx) ≠ a := by omega
    simp [countCorrect, this]

/-- Witness for C7: an unparseable value at a concrete input, and the
no-count property at a concrete position. -/
theorem C7_scorer_no_failure_witness :
    pickedOf (some "zero") = -1 ∧
    countCorrect [2, 1] (fun i => ["zz", "1"].get? i) 0 =
      countCorrect [1] (fun i => ["zz", "1"].get? i) 1 :=
  ⟨C7_scorer_no_failure.2.2.1 "zero" rfl,
   C7_scorer_no_failure.2.2.2 2 [1] (fun i => ["zz", "1"].get? i) 0
     (by decide) (by decide) rfl⟩

/-! Part: Sanitizer properties -/

/-- The element exposed by `dropWhile` fails the predicate. -/
theorem dropWhile_head_false {α : Type} {p : α → Bool} :
    ∀ {l : List α} {x : α} {xs : List α},
      List.dropWhile p l = x :: xs → p x = false := by
  intro l
  induction l with
  | nil => intro x xs h; simp [List.dropWhile] at h
  | cons c cs ih =>
    intro x xs h
    rw [List.dropWhile_cons] at h
    by_cases hc : p c
    · rw [if_pos hc] at h; exact ih h
    · rw [if_neg hc] at h
      injection h with h1 _
      subst h1
      simpa using hc

/-- Idempotence of `dropWhile`. -/
theorem dropWhile_dropWhile {α : Type} (p : α → Bool) (l : List α) :
    List.dropWhile p (List.dropWhile p l) = List.dropWhile p l := by
  cases h : List.dropWhile p l with
  | nil => simp
  | cons x xs => rw [List.dropWhile_cons, if_neg (by simp [dropWhile_head_false h])]

/-- The function `dropWhile` preserves the last element when its result is non-empty. -/
theorem getLast?_dropWhile {α : Type} (p : α → Bool) :
    ∀ (l : List α), List.dropWhile p l ≠ [] →
      (List.dropWhile p l).getLast? = l.getLast? := by
  intro l
  induction l with
  | nil => intro h; simp [List.dropWhile] at h
  | cons c cs ih =>
    intro h
    rw [List.dropWhile_cons] at h ⊢
    by_cases hc : p c
    · rw [if_pos hc] at h ⊢
      have hcs : cs ≠ [] := by
        intro he; subst he; simp [List.dropWhile] at h
      obtain ⟨d, ds, rfl⟩ := List.exists_cons_of_ne_nil hcs
      rw [ih h, List.getLast?_cons_cons]
    · rw [if_neg hc]

/-- Stripping is idempotent, so a sanitized question text is its own trim. -/
theorem stripL_idem (cs : List Char) : stripL (stripL cs) = stripL cs := by
  unfold stripL
  cases hd : (cs.dropWhile isPySpace).reverse.dropWhile isPySpace with
  | nil => simp
  | cons y ys =>
    have hy : isPySpace y = false := dropWhile_head_false hd
    have hdnn : (cs.dropWhile isPySpace).reverse.dropWhile isPySpace ≠ [] := by
      rw [hd]; exact List.cons_ne_nil _ _
    have hlast : (y :: ys).getLast? = (cs.dropWhile isPySpace).head? := by
      rw [← hd, getLast?_dropWhile _ _ hdnn, List.getLast?_reverse]
    have hann : cs.dropWhile isPySpace ≠ [] := by
      intro he
      rw [he] at hd
      simp [List.dropWhile] at hd
    obtain ⟨z, zs, hz⟩ := List.exists_cons_of_ne_nil hann
    have hpz : isPySpace z = false := dropWhile_head_false hz
    have hlz : (y :: ys).reverse.head? = some z := by
      rw [List.head?_reverse, hlast, hz]; rfl
    obtain ⟨ws, hws⟩ : ∃ ws, (y :: ys).reverse = z :: ws := by
      cases hr : (y :: ys).reverse with
      | nil => rw [hr] at hlz; simp at hlz
      | cons w rest =>
        rw [hr] at hlz
        simp only [List.head?_cons, Option.some_inj] at hlz
        exact ⟨rest, by rw [hlz]⟩
    rw [hws, List.dropWhile_cons, if_neg (by simp [hpz]), ← hws,
      List.reverse_reverse, List.dropWhile_cons, if_neg (by simp [hy])]

/-- A question emitted by one loop iteration satisfies the published
invariants: non-empty trimmed text, exactly four text choices, clamped
answer index. -/
theorem candStep_inv (kvs : List (String × PyVal)) (q : Question)
    (h : candStep kvs = some q) :
    q.question ≠ "" ∧ pyStrip q.question = q.question ∧
      q.choices.length = 4 ∧ 0 ≤ q.answer_index ∧ q.answer_index ≤ 3 := by
  unfold candStep at h
  split at h
  · split_ifs at h with hg
    push_neg at hg
    injection h with h
    subst h
    exact ⟨hg.1, by simp only [pyStrip, stripL_idem], by simpa using hg.2,
      le_max_left 0 _, max_le (by norm_num) (min_le_right _ 3)⟩
  · exact absurd h (by simp)

/-- Everything the cleaning loop emits satisfies the invariants. -/
theorem cleanLoop_inv :
    ∀ (l : List PyVal) (out : List Question), cleanLoop l = Except.ok out →
      ∀ q ∈ out, q.question ≠ "" ∧ pyStrip q.question = q.question ∧
        q.choices.length = 4 ∧ 0 ≤ q.answer_index ∧ q.answer_index ≤ 3 := by
  intro l
  induction l with
  | nil =>
    intro out h q hq
    simp only [cleanLoop] at h
    injection h with h
    subst h
    simp at hq
  | cons cand rest ih =>
    intro out h q hq
    cases cand with
    | dict kvs =>
      simp only [cleanLoop] at h
      cases hstep : candStep kvs with
      | none => rw [hstep] at h; exact ih out h q hq
      | some item =>
        rw [hstep] at h
        cases hrest : cleanLoop rest with
        | error e => rw [hrest] at h; simp [Except.map] at h
        | ok outr =>
          rw [hrest] at h
          simp only [Except.map, Except.ok.injEq] at h
          subst h
          rcases List.mem_cons.mp hq with hq | hq
          · subst hq; exact candStep_inv kvs q hstep
          · exact ih outr hrest q hq
    | none_ => simp [cleanLoop] at h
    | bool b => simp [cleanLoop] at h
    | int n => simp [cleanLoop] at h
    | floatv t => simp [cleanLoop] at h
    | str s => simp [cleanLoop] at h
    | list xs => simp [cleanLoop] at h

/-- The cleaning loop emits at most one question per candidate. -/
theorem cleanLoop_length :
    ∀ (l : List PyVal) (out : List Question), cleanLoop l = Except.ok out →
      out.length ≤ l.length := by
  intro l
  induction l with
  | nil =>
    intro out h
    simp only [cleanLoop] at h
    injection h with h
    subst h
    simp
  | cons cand rest ih =>
    intro out h
    cases cand with
    | dict kvs =>
      simp only [cleanLoop] at h
      cases hstep : candStep kvs with
      | none =>
        rw [hstep] at h
        exact le_trans (ih out h) (by simp)
      | some item =>
        rw [hstep] at h
        cases hrest : cleanLoop rest with
        | error e => rw [hrest] at h; simp [Except.map] at h
        | ok outr =>
          rw [hrest] at h
          simp only [Except.map, Except.ok.injEq] at h
          subst h
          simpa using ih outr hrest
    | none_ => simp [cleanLoop] at h
    | bool b => simp [cleanLoop] at h
    | int n => simp [cleanLoop] at h
    | floatv t => simp [cleanLoop] at h
    | str s => simp [cleanLoop] at h
    | list xs => simp [cleanLoop] at h

/-- C5: every QuestionSpec the sanitizer emits has non-empty trimmed
question text, exactly 4 choices and `answer_index` between 0 and 3;
`answer_index` never causes rejection — in particular a candidate with
`answer_index = 5` is accepted with the index clamped to 3. -/
theorem C5_sanitizer_invariants :
    (∀ (cands : List PyVal) (m : Nat) (out : List Question),
      sanitize cands m = Except.ok out → ∀ q ∈ out,
        q.question ≠ "" ∧ pyStrip q.question = q.question ∧
        q.choices.length = 4 ∧ 0 ≤ q.answer_index ∧ q.answer_index ≤ 3) ∧
    sanitize [PyVal.dict [("question", PyVal.str "Q1"),
        ("choices", PyVal.list [PyVal.str "a", PyVal.str "b", PyVal.str "c",
          PyVal.str "d"]),
        ("answer_index", PyVal.int 5)]] 1 =
      Except.ok [⟨"Q1", ["a", "b", "c", "d"], 3⟩] :=
  ⟨fun cands m out h => cleanLoop_inv (cands.take m) out h, rfl⟩

/-- Witness for C5 at a concrete candidate list. -/
theorem C5_sanitizer_invariants_witness :
    (⟨"Q1", ["a", "b", "c", "d"], 3⟩ : Question).question ≠ "" ∧
    pyStrip (⟨"Q1", ["a", "b", "c", "d"], 3⟩ : Question).question =
      (⟨"Q1", ["a", "b", "c", "d"], 3⟩ : Question).question ∧
    (⟨"Q1", ["a", "b", "c", "d"], 3⟩ : Question).choices.length = 4 ∧
    0 ≤ (⟨"Q1", ["a", "b", "c", "d"], 3⟩ : Question).answer_index ∧
    (⟨"Q1", ["a", "b", "c", "d"], 3⟩ : Question).answer_index ≤ 3 :=
  C5_sanitizer_invariants.1
    [PyVal.dict [("question", PyVal.str "Q1"),
      ("choices", PyVal.list [PyVal.str "a", PyVal.str "b", PyVal.str "c",
        PyVal.str "d"]),
      ("answer_index", PyVal.int 5)]] 1 [⟨"Q1", ["a", "b", "c", "d"], 3⟩]
    rfl _ (List.mem_singleton.mpr rfl)

/-- C2 fails as stated: the slice `[:num_q]` is applied to the candidates
before any validation, so with `max_count = 1` and the 3-choice item first,
the 4-choice item is cut off and nothing survives. -/
theorem C2_sanitizer_counterexample :
    sanitize [PyVal.dict [("question", PyVal.str "A"),
        ("choices", PyVal.list [PyVal.str "a", PyVal.str "b", PyVal.str "c"])],
      PyVal.dict [("question", PyVal.str "B"),
        ("choices", PyVal.list [PyVal.str "a", PyVal.str "b", PyVal.str "c",
          PyVal.str "d"])]] 1 = Except.ok [] := rfl

/-- C2 (amended): truncation to `max_count` precedes validation; whenever
both items are within the slice — in particular for any `max_count ≥ 2` on
the two-item list, in either order — the 3-choice item is skipped without
error and exactly the 4-choice item is emitted. -/
theorem C2_sanitizer_filters (kv3 kv4 : List (String × PyVal))
    (cs3 cs4 : List PyVal) (m : Nat)
    (h3c : dGetD kv3 "choices" PyVal.none_ = PyVal.list cs3)
    (h3len : cs3.length = 3)
    (h4c : dGetD kv4 "choices" PyVal.none_ = PyVal.list cs4)
    (h4len : cs4.length = 4)
    (h4q : pyStrip (pyStr (dGetD kv4 "question" (PyVal.str ""))) ≠ "")
    (hm : 2 ≤ m) :
    sanitize [PyVal.dict kv3, PyVal.dict kv4] m =
      Except.ok [⟨pyStrip (pyStr (dGetD kv4 "question" (PyVal.str ""))),
        cs4.map pyStr,
        max 0 (min ((pyInt (dGetD kv4 "answer_index" (PyVal.int 0))).getD 0) 3)⟩] ∧
    sanitize [PyVal.dict kv4, PyVal.dict kv3] m =
      Except.ok [⟨pyStrip (pyStr (dGetD kv4 "question" (PyVal.str ""))),
        cs4.map pyStr,
        max 0 (min ((pyInt (dGetD kv4 "answer_index" (PyVal.int 0))).getD 0) 3)⟩] := by
  have hne3 : cs3 ≠ [] := by intro h; rw [h] at h3len; simp at h3len
  have hor3 : pyOr (dGetD kv3 "choices" PyVal.none_) (PyVal.list [])
      = PyVal.list cs3 := by
    rw [h3c]; simp [pyOr, pyTruthy, hne3]
  have hne4 : cs4 ≠ [] := by intro h; rw [h] at h4len; simp at h4len
  have hor4 : pyOr (dGetD kv4 "choices" PyVal.none_) (PyVal.list [])
      = PyVal.list cs4 := by
    rw [h4c]; simp [pyOr, pyTruthy, hne4]
  have hstep3 : candStep kv3 = none := by
    simp [candStep, hor3, h3len]
  have hstep4 : candStep kv4 =
      some ⟨pyStrip (pyStr (dGetD kv4 "question" (PyVal.str ""))),
        cs4.map pyStr,
        max 0 (min ((pyInt (dGetD kv4 "answer_index" (PyVal.int 0))).getD 0) 3)⟩ := by
    simp [candStep, hor4, h4len, h4q]
  have htake : ∀ a b : PyVal, List.take m [a, b] = [a, b] := fun a b =>
    List.take_of_length_le (by simpa using hm)
  constructor
  · show cleanLoop (List.take m [PyVal.dict kv3, PyVal.dict kv4]) = _
    rw [htake]
    simp only [cleanLoop, hstep3, hstep4, Except.map]
  · show cleanLoop (List.take m [PyVal.dict kv4, PyVal.dict kv3]) = _
    rw [htake]
    simp only [cleanLoop, hstep3, hstep4, Except.map]

/-- Witness for the amended C2 at concrete items. -/
theorem C2_sanitizer_filters_witness :
    sanitize [PyVal.dict [("question", PyVal.str "A"),
        ("choices", PyVal.list [PyVal.str "a", PyVal.str "b", PyVal.str "c"])],
      PyVal.dict [("question", PyVal.str "B"),
        ("choices", PyVal.list [PyVal.str "a", PyVal.str "b", PyVal.str "c",
          PyVal.str "d"]), ("answer_index", PyVal.int 1)]] 2 =
      Except.ok [⟨"B", ["a", "b", "c", "d"], 1⟩] :=
  (C2_sanitizer_filters
    [("question", PyVal.str "A"),
      ("choices", PyVal.list [PyVal.str "a", PyVal.str "b", PyVal.str "c"])]
    [("question", PyVal.str "B"),
      ("choices", PyVal.list [PyVal.str "a", PyVal.str "b", PyVal.str "c",
        PyVal.str "d"]), ("answer_index", PyVal.int 1)]
    [PyVal.str "a", PyVal.str "b", PyVal.str "c"]
    [PyVal.str "a", PyVal.str "b", PyVal.str "c", PyVal.str "d"]
    2 rfl rfl rfl rfl (by decide) (by omega)).1

/-! Part: Generator properties -/

/-- The padding loop tops the accumulator up to `n` questions whenever it
has enough fuel. -/
theorem padQuestions_length (lang : String) :
    ∀ (fuel n : Nat) (acc : List Question), n ≤ acc.length + fuel →
      (padQuestions fuel n acc lang).length = max acc.length n := by
  intro fuel
  induction fuel with
  | zero =>
    intro n acc h
    simp only [padQuestions]
    omega
  | succ fuel ih =>
    intro n acc h
    simp only [padQuestions]
    split_ifs with hlt
    · rw [ih n (acc ++ [dummyQ (acc.length + 1) lang])
        (by simp only [List.length_append, List.length_cons, List.length_nil]; omega)]
      simp only [List.length_append, List.length_cons, List.length_nil]
      omega
    · omega

/-- A successful pass over a backend reply yields at most `n` questions. -/
theorem attemptClean_length (raw : String) (n : Nat) (out : List Question)
    (h : attemptClean raw n = Except.ok out) : out.length ≤ n := by
  unfold attemptClean at h
  cases hq : questionsCands (jsonToPy (_to_json raw)) with
  | error e => rw [hq] at h; exact absurd h (by simp)
  | ok cands =>
    rw [hq] at h
    calc out.length ≤ (cands.take n).length := cleanLoop_length _ _ h
    _ ≤ n := by rw [List.length_take]; exact min_le_left _ _

/-- The clamp always lands in `[1, 10]`. -/
theorem clampCount_mem (n : Int) : 1 ≤ clampCount n ∧ clampCount n ≤ 10 := by
  unfold clampCount
  omega

/-- The primary generator always returns exactly the clamped count of
questions, whatever the backend does. -/
theorem generate_mcqs_length (b : Backend) (src : String) (n : Int)
    (lang : String) :
    (generate_mcqs b src n lang).length = (clampCount n).toNat := by
  cases b with
  | unconfigured => simp [generate_mcqs]
  | failing => simp [generate_mcqs]
  | replies raw =>
    cases hac : attemptClean raw (clampCount n).toNat with
    | error e => simp [generate_mcqs, hac]
    | ok cleaned =>
      have hle : cleaned.length ≤ (clampCount n).toNat :=
        attemptClean_length _ _ _ hac
      have hpad : (padQuestions (clampCount n).toNat (clampCount n).toNat
          cleaned lang).length = max cleaned.length (clampCount n).toNat :=
        padQuestions_length lang _ _ _ (by omega)
      have hpos : 1 ≤ (clampCount n).toNat := by
        have := clampCount_mem n
        omega
      have hne : padQuestions (clampCount n).toNat (clampCount n).toNat
          cleaned lang ≠ [] := by
        intro he
        rw [he] at hpad
        simp at hpad
        omega
      simp only [generate_mcqs, hac]
      rw [if_neg (by rw [List.isEmpty_iff]; exact hne), hpad]
      omega

/-- The secondary generator returns exactly the clamped count when the
backend is unconfigured or its call fails. -/
theorem generate_mcqs2_fallback_length (src : String) (n : Int) :
    (generate_mcqs2 Backend.unconfigured src n).length = (clampCount n).toNat ∧
    (generate_mcqs2 Backend.failing src n).length = (clampCount n).toNat := by
  unfold generate_mcqs2
  constructor <;> simp

/-- Indexing the mapped arithmetic range used for the fallback quiz. -/
theorem range'_map_getD {α : Type} (f : Nat → α) (d : α) :
    ∀ (len s i : Nat), i < len →
      ((List.range' s len).map f).getD i d = f (s + i) := by
  intro len
  induction len with
  | zero => intro s i h; omega
  | succ len ih =>
    intro s i h
    rw [List.range'_succ]
    cases i with
    | zero => simp
    | succ i =>
      simp only [List.map_cons, List.getD_cons_succ]
      rw [ih (s + 1) i (by omega)]
      congr 1
      omega

/-- C1 (amended): the primary implementation (`src/Qlick/app.py`) always
returns exactly the requested count of questions for every backend
behaviour, thanks to its padding loop; the secondary implementation
(`src/Qlick Project/Qlick/app.py`) guarantees this only when the backend is
unconfigured or its call fails — see the counterexample for the case it
violates. -/
theorem C1_exact_count_amended (b : Backend) (src lang : String) (n : Int)
    (h1 : 1 ≤ n) (h2 : n ≤ 10) :
    (generate_mcqs b src n lang).length = n.toNat ∧
    (generate_mcqs2 Backend.unconfigured src n).length = n.toNat ∧
    (generate_mcqs2 Backend.failing src n).length = n.toNat := by
  have hcl : clampCount n = n := by unfold clampCount; omega
  refine ⟨?_, ?_, ?_⟩
  · rw [generate_mcqs_length, hcl]
  · rw [(generate_mcqs2_fallback_length src n).1, hcl]
  · rw [(generate_mcqs2_fallback_length src n).2, hcl]

/-- Witness for the amended C1 with a backend that replies garbage. -/
theorem C1_exact_count_witness :
    (generate_mcqs (Backend.replies "not json at all") "src" 3 "English").length
      = (3 : Int).toNat ∧
    (generate_mcqs2 Backend.unconfigured "src" 3).length = (3 : Int).toNat ∧
    (generate_mcqs2 Backend.failing "src" 3).length = (3 : Int).toNat :=
  C1_exact_count_amended (Backend.replies "not json at all") "src" "English" 3
    (by norm_num) (by norm_num)

/-- C1 fails as stated on the secondary implementation: a backend reply
with one valid question and `requested_count = 2` yields a quiz of length 1
(there is no padding loop in `src/Qlick Project/Qlick/app.py`). -/
theorem C1_exact_count_counterexample :
    (generate_mcqs2 (Backend.replies
      "\x7b\x22questions\x22: [\x7b\x22question\x22: \x22Q1\x22, \x22choices\x22: [\x22a\x22, \x22b\x22, \x22c\x22, \x22d\x22], \x22answer_index\x22: 0\x7d]\x7d")
      "src" 2).length = 1 ∧
    (generate_mcqs2 (Backend.replies
      "\x7b\x22questions\x22: [\x7b\x22question\x22: \x22Q1\x22, \x22choices\x22: [\x22a\x22, \x22b\x22, \x22c\x22, \x22d\x22], \x22answer_index\x22: 0\x7d]\x7d")
      "src" 2).length ≠ 2 := by
  constructor
  · rfl
  · intro h
    have h1 : (generate_mcqs2 (Backend.replies
        "\x7b\x22questions\x22: [\x7b\x22question\x22: \x22Q1\x22, \x22choices\x22: [\x22a\x22, \x22b\x22, \x22c\x22, \x22d\x22], \x22answer_index\x22: 0\x7d]\x7d")
        "src" 2).length = 1 := rfl
    omega

/-- C8: with no backend configured the result is the fully deterministic
fallback: exactly `requested_count` questions, the i-th having the fixed
sample text (numbered from 1; the primary variant appends the language
label), the four fixed placeholder choices, and `answer_index 0`. -/
theorem C8_fallback_deterministic (src lang : String) (n : Int)
    (h1 : 1 ≤ n) (h2 : n ≤ 10) :
    (generate_mcqs Backend.unconfigured src n lang).length = n.toNat ∧
    (∀ i, i < n.toNat →
      (generate_mcqs Backend.unconfigured src n lang).getD i ⟨"", [], 0⟩ =
        ⟨"Sample Question " ++ toString (i + 1) ++ "? (" ++ lang ++ ")",
          ["Option A", "Option B", "Option C", "Option D"], 0⟩) ∧
    (generate_mcqs2 Backend.unconfigured src n).length = n.toNat ∧
    (∀ i, i < n.toNat →
      (generate_mcqs2 Backend.unconfigured src n).getD i ⟨"", [], 0⟩ =
        ⟨"Sample Question " ++ toString (i + 1) ++ "?",
          ["Option A", "Option B", "Option C", "Option D"], 0⟩) := by
  have hcl : clampCount n = n := by unfold clampCount; omega
  refine ⟨by rw [generate_mcqs_length, hcl], ?_,
    by rw [(generate_mcqs2_fallback_length src n).1, hcl], ?_⟩
  · intro i hi
    show ((List.range' 1 (clampCount n).toNat).map
      (fun j => sampleQ j lang)).getD i ⟨"", [], 0⟩ = _
    rw [range'_map_getD _ _ _ _ _ (by rw [hcl]; exact hi)]
    simp only [sampleQ, optionChoices]
    rw [Nat.add_comm]
  · intro i hi
    show ((List.range' 1 (clampCount n).toNat).map sampleQ2).getD i
      ⟨"", [], 0⟩ = _
    rw [range'_map_getD _ _ _ _ _ (by rw [hcl]; exact hi)]
    simp only [sampleQ2, optionChoices]
    rw [Nat.add_comm]

/-- Witness for C8 at `requested_count = 5`, position 2. -/
theorem C8_fallback_deterministic_witness :
    (generate_mcqs Backend.unconfigured "txt" 5 "English").length
        = (5 : Int).toNat ∧
    (generate_mcqs Backend.unconfigured "txt" 5 "English").getD 2 ⟨"", [], 0⟩ =
      ⟨"Sample Question " ++ toString (2 + 1) ++ "? (" ++ "English" ++ ")",
        ["Option A", "Option B", "Option C", "Option D"], 0⟩ ∧
    (generate_mcqs2 Backend.unconfigured "txt" 5).getD 0 ⟨"", [], 0⟩ =
      ⟨"Sample Question " ++ toString (0 + 1) ++ "?",
        ["Option A", "Option B", "Option C", "Option D"], 0⟩ :=
  ⟨(C8_fallback_deterministic "txt" "English" 5 (by norm_num) (by norm_num)).1,
   (C8_fallback_deterministic "txt" "English" 5 (by norm_num)
     (by norm_num)).2.1 2 (by norm_num),
   (C8_fallback_deterministic "txt" "English" 5 (by norm_num)
     (by norm_num)).2.2.2 0 (by norm_num)⟩

/-- C9: a requested count below 1 is clamped to 1 and one above 10 to 10,
and the generators' output length follows the clamped value. -/
theorem C9_count_clamped (b : Backend) (src lang : String) (n : Int) :
    (n < 1 → clampCount n = 1 ∧ (generate_mcqs b src n lang).length = 1 ∧
      (generate_mcqs2 Backend.unconfigured src n).length = 1) ∧
    (10 < n → clampCount n = 10 ∧ (generate_mcqs b src n lang).length = 10 ∧
      (generate_mcqs2 Backend.unconfigured src n).length = 10) := by
  constructor
  · intro h
    have hcl : clampCount n = 1 := by unfold clampCount; omega
    exact ⟨hcl, by rw [generate_mcqs_length, hcl]; rfl,
      by rw [(generate_mcqs2_fallback_length src n).1, hcl]; rfl⟩
  · intro h
    have hcl : clampCount n = 10 := by unfold clampCount; omega
    exact ⟨hcl, by rw [generate_mcqs_length, hcl]; rfl,
      by rw [(generate_mcqs2_fallback_length src n).1, hcl]; rfl⟩

/-- Witness for C9 at the out-of-range counts 0, 15 and -3. -/
theorem C9_count_clamped_witness :
    clampCount 0 = 1 ∧
    (generate_mcqs Backend.unconfigured "" 0 "English").length = 1 ∧
    clampCount 15 = 10 ∧
    (generate_mcqs Backend.unconfigured "" 15 "English").length = 10 ∧
    clampCount (-3) = 1 :=
  ⟨((C9_count_clamped Backend.unconfigured "" "English" 0).1 (by norm_num)).1,
   ((C9_count_clamped Backend.unconfigured "" "English" 0).1
     (by norm_num)).2.1,
   ((C9_count_clamped Backend.unconfigured "" "English" 15).2
     (by norm_num)).1,
   ((C9_count_clamped Backend.unconfigured "" "English" 15).2
     (by norm_num)).2.1,
   ((C9_count_clamped Backend.unconfigured "" "English" (-3)).1
     (by norm_num)).1⟩

/-! Part: Extractor properties -/

/-- A successful literal match consumes exactly the literal. -/
theorem matchLit_eq : ∀ (lit cs rest : List Char),
    matchLit lit cs = some rest → cs = lit ++ rest := by
  intro lit
  induction lit with
  | nil =>
    intro cs rest h
    simp only [matchLit, Option.some_inj] at h
    simp [h]
  | cons l ls ih =>
    intro cs rest h
    cases cs with
    | nil => simp [matchLit] at h
    | cons c cs' =>
      simp only [matchLit] at h
      split_ifs at h with hc
      subst hc
      rw [List.cons_append, ih cs' rest h]

/-- Skipping whitespace keeps every non-whitespace member. -/
theorem mem_skipWs {c : Char} : ∀ {l : List Char}, c ∈ l →
    isWsChar c = false → c ∈ skipWs l := by
  intro l
  induction l with
  | nil => intro h _; simp at h
  | cons x xs ih =>
    intro h hw
    simp only [skipWs]
    split_ifs with hx
    · rcases List.mem_cons.mp h with rfl | h2
      · rw [hx] at hw; simp at hw
      · exact ih h2 hw
    · exact h

/-- Skipping whitespace is the identity on a non-whitespace head. -/
theorem skipWs_cons_of_neg {c : Char} (l : List Char)
    (h : isWsChar c = false) : skipWs (c :: l) = c :: l := by
  simp [skipWs, h]

/-- The two ASCII ranges of `isLetterChar`. -/
theorem isLetterChar_ranges {a : Char} (h : isLetterChar a = true) :
    (65 ≤ a.toNat ∧ a.toNat ≤ 90) ∨ (97 ≤ a.toNat ∧ a.toNat ≤ 122) := by
  simp only [isLetterChar, Bool.or_eq_true, Bool.and_eq_true,
    decide_eq_true_eq] at h
  exact h

/-- A letter is distinct from any character outside the letter ranges. -/
theorem ne_of_letter {a : Char} (h : isLetterChar a = true) (c : Char)
    (hc : c.toNat < 65 ∨ (90 < c.toNat ∧ c.toNat < 97) ∨ 122 < c.toNat) :
    a ≠ c := by
  intro he
  subst he
  rcases isLetterChar_ranges h with ⟨h1, h2⟩ | ⟨h1, h2⟩ <;> omega

/-- Letters are not digits. -/
theorem letter_not_digit {a : Char} (h : isLetterChar a = true) :
    isDigitChar a = false := by
  by_contra hd
  rw [Bool.not_eq_false] at hd
  simp only [isDigitChar, Bool.and_eq_true, decide_eq_true_eq] at hd
  rcases isLetterChar_ranges h with ⟨h1, h2⟩ | ⟨h1, h2⟩ <;> omega

/-- A number token cannot start with a letter. -/
theorem parseNum_letter {a : Char} (h : isLetterChar a = true)
    (r : List Char) : parseNum (a :: r) = none := by
  have hne : a ≠ '-' := ne_of_letter h '-' (by decide)
  have hne0 : a ≠ '0' := ne_of_letter h '0' (by decide)
  have hd : isDigitChar a = false := letter_not_digit h
  simp only [parseNum, if_neg hne, parseNumBody, if_neg hne0, hd]
  simp

/-- On input whose first non-whitespace character is a letter, a successful
parse can only be one of the keyword constants, so the consumed prefix
contains no opening brace. -/
theorem parseValue_letter (fuel : Nat) (cs : List Char) (v : Json)
    (rest : List Char) (a : Char) (t : List Char)
    (hskip : skipWs cs = a :: t) (ha : isLetterChar a = true)
    (hpv : parseValue fuel cs = some (v, rest)) :
    ∃ kw, skipWs cs = kw ++ rest ∧ lbrace ∉ kw := by
  cases fuel with
  | zero => simp [parseValue] at hpv
  | succ fuel =>
    unfold parseValue at hpv
    rw [hskip] at hpv
    simp only [] at hpv
    rw [if_neg (ne_of_letter ha lbrace (by decide)),
      if_neg (ne_of_letter ha '[' (by decide)),
      if_neg (ne_of_letter ha dquote (by decide))] at hpv
    by_cases h1 : a = 't'
    · rw [if_pos h1] at hpv
      obtain ⟨r2, hm, he⟩ := Option.map_eq_some'.mp hpv
      injection he with hv hr
      subst h1
      refine ⟨['t', 'r', 'u', 'e'], ?_, by decide⟩
      rw [hskip, matchLit_eq _ _ _ hm, hr]
      rfl
    rw [if_neg h1] at hpv
    by_cases h2 : a = 'f'
    · rw [if_pos h2] at hpv
      obtain ⟨r2, hm, he⟩ := Option.map_eq_some'.mp hpv
      injection he with hv hr
      subst h2
      refine ⟨['f', 'a', 'l', 's', 'e'], ?_, by decide⟩
      rw [hskip, matchLit_eq _ _ _ hm, hr]
      rfl
    rw [if_neg h2] at hpv
    by_cases h3 : a = 'n'
    · rw [if_pos h3] at hpv
      obtain ⟨r2, hm, he⟩ := Option.map_eq_some'.mp hpv
      injection he with hv hr
      subst h3
      refine ⟨['n', 'u', 'l', 'l'], ?_, by decide⟩
      rw [hskip, matchLit_eq _ _ _ hm, hr]
      rfl
    rw [if_neg h3] at hpv
    by_cases h4 : a = 'N'
    · rw [if_pos h4] at hpv
      obtain ⟨r2, hm, he⟩ := Option.map_eq_some'.mp hpv
      injection he with hv hr
      subst h4
      refine ⟨['N', 'a', 'N'], ?_, by decide⟩
      rw [hskip, matchLit_eq _ _ _ hm, hr]
      rfl
    rw [if_neg h4] at hpv
    by_cases h5 : a = 'I'
    · rw [if_pos h5] at hpv
      obtain ⟨r2, hm, he⟩ := Option.map_eq_some'.mp hpv
      injection he with hv hr
      subst h5
      refine ⟨['I', 'n', 'f', 'i', 'n', 'i', 't', 'y'], ?_, by decide⟩
      rw [hskip, matchLit_eq _ _ _ hm, hr]
      rfl
    rw [if_neg h5, if_neg (ne_of_letter ha '-' (by decide))] at hpv
    rw [parseNum_letter ha] at hpv
    simp at hpv

/-- A prefix of letters and spaces containing at least one letter leaves a
letter at the front after whitespace skipping. -/
theorem skipWs_prose :
    ∀ (pre : List Char), (∀ c ∈ pre, isLetterChar c = true ∨ c = ' ') →
      (∃ c ∈ pre, isLetterChar c = true) →
      ∀ (rest : List Char), ∃ a t, skipWs (pre ++ rest) = a :: t ∧
        isLetterChar a = true := by
  intro pre
  induction pre with
  | nil => intro _ hex; simp at hex
  | cons x xs ih =>
    intro hall hex rest
    simp only [List.cons_append, skipWs]
    split_ifs with hx
    · have hxs : ∃ c ∈ xs, isLetterChar c = true := by
        obtain ⟨c, hc, hlc⟩ := hex
        rcases List.mem_cons.mp hc with rfl | h2
        · exfalso
          have hw := hx
          simp only [isWsChar, Bool.or_eq_true, decide_eq_true_eq] at hw
          rcases isLetterChar_ranges hlc with ⟨hr1, hr2⟩ | ⟨hr1, hr2⟩ <;> omega
        · exact ⟨c, h2, hlc⟩
      exact ih (fun c hc => hall c (List.mem_cons_of_mem _ hc)) hxs rest
    · have hlx : isLetterChar x = true := by
        rcases hall x (List.mem_cons_self x xs) with h | h
        · exact h
        · subst h; simp [isWsChar] at hx
      exact ⟨x, xs ++ rest, rfl, hlx⟩

/-- Strict parse of a prose-led text that contains an opening brace fails:
either no value parses at all, or a keyword constant parses and the brace is
left over as trailing garbage. -/
theorem json_loadsL_prose_none (pre rest : List Char)
    (hall : ∀ c ∈ pre, isLetterChar c = true ∨ c = ' ')
    (hex : ∃ c ∈ pre, isLetterChar c = true)
    (hbr : lbrace ∈ rest) :
    json_loadsL (pre ++ rest) = none := by
  unfold json_loadsL
  cases hp : parseValue (6 * (pre ++ rest).length + 6) (pre ++ rest) with
  | none => rfl
  | some pr =>
    obtain ⟨v, r⟩ := pr
    show (if skipWs r = [] then some v else none) = none
    obtain ⟨a, t, hskip, ha⟩ := skipWs_prose pre hall hex rest
    obtain ⟨kw, hkw, hnl⟩ := parseValue_letter _ _ _ _ _ _ hskip ha hp
    have hbm : lbrace ∈ skipWs (pre ++ rest) :=
      mem_skipWs (List.mem_append_right pre hbr) (by decide)
    rw [hkw] at hbm
    have hbr2 : lbrace ∈ r := by
      rcases List.mem_append.mp hbm with h | h
      · exact absurd h hnl
      · exact h
    have hne : skipWs r ≠ [] :=
      List.ne_nil_of_mem (mem_skipWs hbr2 (by decide))
    rw [if_neg hne]

/-- The function `dropWhile` passes over a block that wholly satisfies the predicate. -/
theorem dropWhile_append_all {α : Type} (p : α → Bool) :
    ∀ (l1 l2 : List α), (∀ c ∈ l1, p c = true) →
      List.dropWhile p (l1 ++ l2) = List.dropWhile p l2 := by
  intro l1
  induction l1 with
  | nil => intro l2 _; rfl
  | cons x xs ih =>
    intro l2 hall
    rw [List.cons_append, List.dropWhile_cons,
      if_pos (hall x (List.mem_cons_self x xs))]
    exact ih l2 fun c hc => hall c (List.mem_cons_of_mem _ hc)

/-- The function `dropWhile` keeps something when a failing element is present. -/
theorem dropWhile_ne_nil_of_mem {α : Type} {p : α → Bool} {x : α} :
    ∀ {l : List α}, x ∈ l → p x = false → List.dropWhile p l ≠ [] := by
  intro l
  induction l with
  | nil => intro h _; simp at h
  | cons c cs ih =>
    intro h hp
    rw [List.dropWhile_cons]
    split_ifs with hc
    · rcases List.mem_cons.mp h with rfl | h2
      · rw [hp] at hc; exact absurd hc (by simp)
      · exact ih h2 hp
    · exact List.cons_ne_nil c cs

/-- The function `dropWhile` only removes a leading block. -/
theorem dropWhile_suffix_decomp {α : Type} (p : α → Bool) :
    ∀ (l : List α), ∃ u, l = u ++ List.dropWhile p l := by
  intro l
  induction l with
  | nil => exact ⟨[], rfl⟩
  | cons c cs ih =>
    rw [List.dropWhile_cons]
    split_ifs with hc
    · obtain ⟨u, hu⟩ := ih
      exact ⟨c :: u, by rw [List.cons_append, ← hu]⟩
    · exact ⟨[], rfl⟩

/-- The brace span is a prefix of the tail it was carved from. -/
theorem span_prefix_decomp (tail : List Char) :
    ∃ u, tail =
      ((tail.reverse.dropWhile (fun c => c ≠ rbrace)).reverse) ++ u := by
  obtain ⟨u, hu⟩ :=
    dropWhile_suffix_decomp (fun c => decide (c ≠ rbrace)) tail.reverse
  refine ⟨u.reverse, ?_⟩
  have h2 := congrArg List.reverse hu
  rwa [List.reverse_reverse, List.reverse_append] at h2

/-- Any span the regexp search returns starts with an opening brace. -/
theorem braceSpan_head (cs sp : List Char) (h : braceSpan cs = some sp) :
    ∃ t, sp = lbrace :: t := by
  unfold braceSpan at h
  split_ifs at h with h1 h2
  injection h with h
  subst h
  obtain ⟨u, hu⟩ := span_prefix_decomp (cs.dropWhile (fun c => c ≠ lbrace))
  have hne : (List.dropWhile (fun c => decide (c ≠ rbrace))
      (List.dropWhile (fun c => decide (c ≠ lbrace)) cs).reverse).reverse
        ≠ [] := by
    intro he
    rw [he] at h2
    simp at h2
  obtain ⟨z, zs, hsp⟩ := List.exists_cons_of_ne_nil hne
  rw [hsp] at hu
  cases hx : cs.dropWhile (fun c => c ≠ lbrace) with
  | nil => rw [hx] at h1; simp at h1
  | cons x xs =>
    have hpx := dropWhile_head_false (p := fun c => decide (c ≠ lbrace)) hx
    have hxl : x = lbrace := by simpa using hpx
    rw [hx] at hsp
    rw [hx, List.cons_append] at hu
    injection hu with hu1 _
    exact ⟨zs, by rw [hsp, ← hu1, hxl]⟩

/-- When a serialized object is wrapped in prose with no opening brace
before it and no closing brace after it, the greedy span is exactly the
object text. -/
theorem braceSpan_exact (pre j post : List Char)
    (hj1 : ∃ t, j = lbrace :: t)
    (hj2 : j.getLast? = some rbrace)
    (hpre : lbrace ∉ pre)
    (hpost : rbrace ∉ post) :
    braceSpan (pre ++ j ++ post) = some j := by
  obtain ⟨t, rfl⟩ := hj1
  have h1 : List.dropWhile (fun c => decide (c ≠ lbrace))
      (pre ++ lbrace :: t ++ post) = lbrace :: (t ++ post) := by
    rw [List.append_assoc]
    rw [dropWhile_append_all _ pre _ (fun c hc => by
      simp only [decide_eq_true_eq]
      intro he
      exact hpre (he ▸ hc))]
    rw [List.cons_append, List.dropWhile_cons, if_neg (by simp)]
  obtain ⟨w, hw⟩ : ∃ w, (lbrace :: t).reverse = rbrace :: w := by
    have hh : (lbrace :: t).reverse.head? = some rbrace := by
      rw [List.head?_reverse]; exact hj2
    cases hr : (lbrace :: t).reverse with
    | nil => rw [hr] at hh; simp at hh
    | cons a b =>
      rw [hr] at hh
      simp only [List.head?_cons, Option.some_inj] at hh
      exact ⟨b, by rw [hh]⟩
  have h2 : (List.dropWhile (fun c => decide (c ≠ rbrace))
      (lbrace :: (t ++ post)).reverse).reverse = lbrace :: t := by
    rw [← List.cons_append, List.reverse_append]
    rw [dropWhile_append_all _ post.reverse _ (fun c hc => by
      simp only [decide_eq_true_eq]
      intro he
      exact hpost (he ▸ List.mem_reverse.mp hc))]
    rw [hw, List.dropWhile_cons, if_neg (by simp), ← hw,
      List.reverse_reverse]
  unfold braceSpan
  rw [h1, if_neg (by simp), h2, if_neg (by simp)]

/-- When the first brace opens a single-quoted dict, the greedy span starts
with that brace and the single quote, whatever follows. -/
theorem braceSpan_prose (pre : List Char) (c2 : Char) (mid : List Char)
    (hpre : ∀ c ∈ pre, c ≠ lbrace)
    (hbr : rbrace ∈ mid) :
    ∃ tail, braceSpan (pre ++ lbrace :: c2 :: mid) =
      some (lbrace :: c2 :: tail) := by
  have h1 : List.dropWhile (fun c => decide (c ≠ lbrace))
      (pre ++ lbrace :: c2 :: mid) = lbrace :: c2 :: mid := by
    rw [dropWhile_append_all _ pre _
      (fun c hc => by simp only [decide_eq_true_eq]; exact hpre c hc)]
    rw [List.dropWhile_cons, if_neg (by simp)]
  have hd : List.dropWhile (fun c => decide (c ≠ rbrace))
      (lbrace :: c2 :: mid).reverse ≠ [] :=
    dropWhile_ne_nil_of_mem (x := rbrace)
      (List.mem_reverse.mpr (by simp [hbr])) (by simp)
  have hne : (List.dropWhile (fun c => decide (c ≠ rbrace))
      (lbrace :: c2 :: mid).reverse).reverse ≠ [] := by
    intro he
    exact hd (by simpa using congrArg List.reverse he)
  obtain ⟨z, zs, hz⟩ := List.exists_cons_of_ne_nil hne
  obtain ⟨u, hu⟩ := span_prefix_decomp (lbrace :: c2 :: mid)
  rw [hz, List.cons_append] at hu
  injection hu with hu1 hu2
  cases hzs : zs with
  | nil =>
    exfalso
    rw [hzs] at hz
    have hd3 : List.dropWhile (fun c => decide (c ≠ rbrace))
        (lbrace :: c2 :: mid).reverse = [z] := by
      have h5 := congrArg List.reverse hz
      rwa [List.reverse_reverse] at h5
    have hq := dropWhile_head_false (p := fun c => decide (c ≠ rbrace)) hd3
    have hzr : z = rbrace := by simpa using hq
    rw [← hu1] at hzr
    exact absurd hzr (by decide)
  | cons z2 tail2 =>
    rw [hzs, List.cons_append] at hu2
    injection hu2 with hu3 _
    refine ⟨tail2, ?_⟩
    unfold braceSpan
    rw [h1, if_neg (by simp)]
    rw [hzs] at hz
    rw [hz, if_neg (by simp), ← hu1, ← hu3]

/-- An object body cannot start with a single quote (keys must be
double-quoted strings). -/
theorem parseObjBody_squote (fuel : Nat) (t : List Char) :
    parseObjBody fuel (squote :: t) = none := by
  cases fuel with
  | zero => rfl
  | succ fuel => rfl

/-- A value starting with an opening brace followed by a single quote never
parses. -/
theorem parseValue_lbrace_squote (fuel : Nat) (t : List Char) :
    parseValue fuel (lbrace :: squote :: t) = none := by
  cases fuel with
  | zero => rfl
  | succ fuel => exact parseObjBody_squote fuel t

/-- Strict parse of the greedy span of a single-quoted dict fails. -/
theorem json_loadsL_span_squote (t : List Char) :
    json_loadsL (lbrace :: squote :: t) = none := by
  unfold json_loadsL
  rw [parseValue_lbrace_squote]

/-- A successful member parse always produces an object value. -/
theorem parseMembers_obj :
    ∀ (fuel : Nat) (cs : List Char) (acc : List (List Char × Json))
      (v : Json) (r : List Char), parseMembers fuel cs acc = some (v, r) →
      ∃ kvs, v = Json.obj kvs := by
  intro fuel
  induction fuel with
  | zero => intro cs acc v r h; simp [parseMembers] at h
  | succ fuel ih =>
    intro cs acc v r h
    unfold parseMembers at h
    repeat' split at h
    all_goals first
      | exact Option.noConfusion h
      | exact ih _ _ _ _ h
      | (injection h with h2
         injection h2 with hv hr
         exact ⟨_, hv.symm⟩)

/-- A successful object-body parse always produces an object value. -/
theorem parseObjBody_obj (fuel : Nat) (cs : List Char) (v : Json)
    (r : List Char) (h : parseObjBody fuel cs = some (v, r)) :
    ∃ kvs, v = Json.obj kvs := by
  cases fuel with
  | zero => simp [parseObjBody] at h
  | succ fuel =>
    unfold parseObjBody at h
    repeat' split at h
    all_goals first
      | exact Option.noConfusion h
      | exact parseMembers_obj fuel _ _ _ _ h
      | (injection h with h2
         injection h2 with hv hr
         exact ⟨[], hv.symm⟩)

/-- A strict parse of text that begins with an opening brace can only
return a mapping. -/
theorem json_loadsL_lbrace_obj (sp t : List Char) (hsp : sp = lbrace :: t)
    (v : Json) (h : json_loadsL sp = some v) : ∃ kvs, v = Json.obj kvs := by
  subst hsp
  unfold json_loadsL at h
  obtain ⟨k, hk⟩ : ∃ k, 6 * (lbrace :: t).length + 6 = k + 1 :=
    ⟨6 * (lbrace :: t).length + 5, by omega⟩
  rw [hk] at h
  cases hp : parseValue (k + 1) (lbrace :: t) with
  | none => rw [hp] at h; simp at h
  | some pr =>
    obtain ⟨v2, r⟩ := pr
    rw [hp] at h
    have hv : v2 = v := by
      by_cases hr : skipWs r = []
      · have h2 : (if skipWs r = [] then some v2 else none) = some v := h
        rw [if_pos hr] at h2
        injection h2
      · have h2 : (if skipWs r = [] then some v2 else none) = some v := h
        rw [if_neg hr] at h2
        simp at h2
    unfold parseValue at hp
    rw [skipWs_cons_of_neg t (by decide)] at hp
    obtain ⟨kvs, hk2⟩ := parseObjBody_obj k t v2 r hp
    exact ⟨kvs, hv ▸ hk2⟩

/-- Quote replacement is the identity on prose (letters and spaces). -/
theorem map_replQ_prose (pre : List Char)
    (hall : ∀ c ∈ pre, isLetterChar c = true ∨ c = ' ') :
    pre.map replQ = pre := by
  induction pre with
  | nil => rfl
  | cons c cs ih =>
    rw [List.map_cons, ih (fun d hd => hall d (List.mem_cons_of_mem _ hd))]
    congr 1
    rcases hall c (List.mem_cons_self c cs) with h | h
    · unfold replQ
      rw [if_neg (ne_of_letter h squote (by decide))]
    · subst h; rfl

/-- C3 fails as stated: `json.loads` can succeed on the whole reply with a
non-mapping document (here a JSON array), which `_to_json` returns as-is. -/
theorem C3_extractor_counterexample :
    isMapping (_to_json "[1, 2]") = false := rfl

/-- C3 (amended): `_to_json` is total (never raises); whenever neither the
whole text nor its quote-replaced form parses as a JSON document — in
particular on any text with no JSON-like structure — the result is a
mapping: either the object recovered from the brace span or the empty
mapping.  (A non-mapping result occurs only when attempt 1 or 3 parses a
non-object document; the span of attempt 2 always parses as an object.) -/
theorem C3_extractor_mapping (raw : String)
    (h1 : json_loadsL raw.data = none)
    (h2 : json_loadsL (replaceQuotes raw.data) = none) :
    isMapping (_to_json raw) = true := by
  unfold _to_json
  rw [h1]
  cases hb : braceSpan raw.data with
  | none => simp [h2, isMapping]
  | some sp =>
    cases hs : json_loadsL sp with
    | none => simp [hs, h2, isMapping]
    | some v =>
      obtain ⟨t, ht⟩ := braceSpan_head raw.data sp hb
      obtain ⟨kvs, hk⟩ := json_loadsL_lbrace_obj sp t ht v hs
      subst hk
      simp [hs, isMapping]

/-- Witness for the amended C3 on a structureless string. -/
theorem C3_extractor_mapping_witness :
    isMapping (_to_json "no json here at all") = true :=
  C3_extractor_mapping "no json here at all" rfl rfl

/-- C4 fails as stated: a closing brace inside the trailing prose extends
the greedy span past the object, the span no longer parses, and the valid
embedded object (shown parseable on its own) is lost — the result is the
empty mapping instead of the object's content. -/
theorem C4_extractor_counterexample :
    _to_json "x \x7b\x22a\x22: 1\x7d y\x7d" = Json.obj [] ∧
    json_loads "\x7b\x22a\x22: 1\x7d" =
      some (Json.obj [(['a'], Json.num ['1'])]) :=
  ⟨rfl, rfl⟩

/-- C4 (amended): when a strict parse of the whole text fails, `_to_json`
recovers the embedded object's parsed content unchanged via the greedy
first-brace/last-brace span, provided no `\x7b` occurs in the prose before
the object and no `\x7d` occurs in the prose after it. -/
theorem C4_extractor_embedded (pre j post : List Char) (v : Json)
    (hj : json_loadsL j = some v)
    (hj1 : ∃ t, j = lbrace :: t)
    (hj2 : j.getLast? = some rbrace)
    (hpre : lbrace ∉ pre)
    (hpost : rbrace ∉ post)
    (hwhole : json_loadsL (pre ++ j ++ post) = none) :
    _to_json (String.mk (pre ++ j ++ post)) = v := by
  unfold _to_json
  have hdata : (String.mk (pre ++ j ++ post)).data = pre ++ j ++ post := rfl
  rw [hdata, hwhole, braceSpan_exact pre j post hj1 hj2 hpre hpost]
  simp [hj]

/-- Witness for the amended C4 on a concrete wrapped object. -/
theorem C4_extractor_embedded_witness :
    _to_json (String.mk ("note ".data ++ "\x7b\x22a\x22: 1\x7d".data
        ++ " end".data)) = Json.obj [(['a'], Json.num ['1'])] :=
  C4_extractor_embedded "note ".data "\x7b\x22a\x22: 1\x7d".data " end".data
    (Json.obj [(['a'], Json.num ['1'])]) rfl ⟨_, rfl⟩ rfl (by decide)
    (by decide) rfl

/-- C10: the single-quote repair step replaces quotes in (and parses) the
entire raw input, never the brace span.  A Python-style single-quoted dict
is therefore recovered when it is the whole input (second conjunct), but
whenever it is embedded in surrounding prose — any non-empty run of letters
and spaces containing a letter — all three attempts fail and `_to_json`
returns the empty mapping (first conjunct). -/
theorem C10_quote_repair_scope (pre post : List Char)
    (hall : ∀ c ∈ pre, isLetterChar c = true ∨ c = ' ')
    (hex : ∃ c ∈ pre, isLetterChar c = true) :
    _to_json (String.mk (pre ++ lbrace :: squote :: 'a' :: squote :: ':'
        :: ' ' :: '1' :: rbrace :: post)) = Json.obj [] ∧
    _to_json (String.mk [lbrace, squote, 'a', squote, ':', ' ', '1', rbrace])
      = Json.obj [(['a'], Json.num ['1'])] := by
  constructor
  · have hdata : (String.mk (pre ++ lbrace :: squote :: 'a' :: squote :: ':'
        :: ' ' :: '1' :: rbrace :: post)).data
        = pre ++ lbrace :: squote :: 'a' :: squote :: ':'
          :: ' ' :: '1' :: rbrace :: post := rfl
    have h1 : json_loadsL (pre ++ lbrace :: squote :: 'a' :: squote :: ':'
        :: ' ' :: '1' :: rbrace :: post) = none :=
      json_loadsL_prose_none pre _ hall hex (List.mem_cons_self _ _)
    obtain ⟨tail, hbs⟩ := braceSpan_prose pre squote
      ('a' :: squote :: ':' :: ' ' :: '1' :: rbrace :: post)
      (fun c hc => by
        rcases hall c hc with h | h
        · exact ne_of_letter h lbrace (by decide)
        · subst h; decide)
      (by simp)
    have hspan : json_loadsL (lbrace :: squote :: tail) = none :=
      json_loadsL_span_squote tail
    have h3 : json_loadsL (replaceQuotes (pre ++ lbrace :: squote :: 'a'
        :: squote :: ':' :: ' ' :: '1' :: rbrace :: post)) = none := by
      have hrepl : replaceQuotes (pre ++ lbrace :: squote :: 'a' :: squote
          :: ':' :: ' ' :: '1' :: rbrace :: post)
          = pre ++ lbrace :: dquote :: 'a' :: dquote :: ':' :: ' ' :: '1'
            :: rbrace :: (post.map replQ) := by
        unfold replaceQuotes
        rw [List.map_append, map_replQ_prose pre hall]
        rfl
      rw [hrepl]
      exact json_loadsL_prose_none pre _ hall hex (List.mem_cons_self _ _)
    unfold _to_json
    rw [hdata, h1, hbs]
    simp only [Option.some_bind]
    rw [hspan, h3]
  · rfl

/-- Witness for C10 with concrete prose. -/
theorem C10_quote_repair_scope_witness :
    _to_json (String.mk (['o', 'k', ' '] ++ lbrace :: squote :: 'a'
        :: squote :: ':' :: ' ' :: '1' :: rbrace :: [' ', 'x'])) =
      Json.obj [] ∧
    _to_json (String.mk [lbrace, squote, 'a', squote, ':', ' ', '1', rbrace])
      = Json.obj [(['a'], Json.num ['1'])] :=
  C10_quote_repair_scope ['o', 'k', ' '] [' ', 'x'] (by decide) (by decide)
